import Mathlib

/-!
Verification development for the stromtracker electricity-cost tracker.

The Python source is shallowly embedded:
* wall-clock instants are rationals counting hours since an arbitrary epoch;
  the wall-clock hour grid is the integer grid, and a calendar day is a block
  of 24 consecutive grid hours (`day = hour.fdiv 24`);
* Python floats are idealised as rationals, and Python's `round(x, n)`
  (round-half-to-even to `n` decimal digits) is `pyRound x n`;
* fallible operations return `Option`; the impure collaborators (price API
  response, SQLite cache, the clock) are explicit parameters.
-/

/-- Round-half-to-even to the nearest integer, the idealisation of Python's
built-in `round` on exact values: ties (fractional part exactly 1/2) go to the
even neighbour. -/
def pyRoundInt (q : ℚ) : ℤ :=
  let f := ⌊q⌋
  let r := q - (f : ℚ)
  if r < 1/2 then f
  else if 1/2 < r then f + 1
  else if Even f then f else f + 1

/-- Python's `round(q, n)`: round-half-to-even at `n` decimal digits. -/
def pyRound (q : ℚ) (n : ℕ) : ℚ :=
  (pyRoundInt (q * 10 ^ n) : ℚ) / 10 ^ n

/-! ## `core/calculator.py` — `calculate_watt` (lines 17-34) -/

/-- Python `calculate_watt(low_watt, high_watt, mode)`: `"low"` and `"high"` return
the respective bound; any other mode string falls into the `else  # avg`
branch and returns `(low_watt + high_watt) // 2` (Python floor division). -/
def calculate_watt (low_watt high_watt : ℤ) (mode : String) : ℤ :=
  if mode = "low" then low_watt
  else if mode = "high" then high_watt
  else (low_watt + high_watt).fdiv 2

/-! ## `core/price_api.py` — `get_prices_for_period` (lines 118-145)

The loop `current = start.replace(minute=0, second=0, microsecond=0);
while current < end: ... current += timedelta(hours=1)` starts at the hour
floor of `start` and visits every integer grid hour `h` with
`⌊start⌋ ≤ h < end`; for an integer `h`, `h < end ↔ h < ⌈end⌉`, so the
visited hours are `⌊start⌋ + i` for `i < (⌈end⌉ - ⌊start⌋).toNat`.
`get_price_for_hour` is abstracted as `priceAt : ℤ → Option ℚ` on grid
hours; hours whose price is `None` are skipped (`if price is not None`). -/

/-- Number of grid hours visited by the `while current < end` loop. -/
def hourCount (start endT : ℚ) : ℕ := (⌈endT⌉ - ⌊start⌋).toNat

/-- The grid hours visited by the loop, in order. -/
def hourList (start endT : ℚ) : List ℤ :=
  (List.range (hourCount start endT)).map (fun (i : ℕ) => ⌊start⌋ + (i : ℤ))

/-- Python `get_prices_for_period(start, end, region)` with the per-hour price
resolution (`get_price_for_hour`) abstracted as `priceAt`. -/
def get_prices_for_period (start endT : ℚ) (priceAt : ℤ → Option ℚ) :
    List (ℤ × ℚ) :=
  (hourList start endT).filterMap (fun h => (priceAt h).map (fun p => (h, p)))

/-! ## `core/calculator.py` — `calculate_session_cost` (lines 37-159) -/

/-- One entry of the `hourly_breakdown` list (lines 137-143); the
`strftime("%H:%M")` label is kept as the raw grid hour. -/
structure BreakdownEntry where
  hourStart : ℤ
  fraction : ℚ
  price : ℚ
  kwh : ℚ
  cost : ℚ
deriving DecidableEq, Repr

/-- The dict returned by `calculate_session_cost`. -/
structure SessionResult where
  hours : ℚ
  kwh : ℚ
  spot_cost : ℚ
  fixed_cost : ℚ
  total_cost : ℚ
  avg_spot_price : ℚ
  hourly_breakdown : List BreakdownEntry
deriving DecidableEq, Repr

/-- Accumulator of the `for i, (hour_start, price) in enumerate(...)` loop. -/
structure LoopState where
  kwh : ℚ
  spot : ℚ
  breakdown : List BreakdownEntry
deriving DecidableEq, Repr

/-- Body of the per-hour loop (lines 116-143): clip the hour to the session
boundaries, skip non-positive fractions, accumulate energy and spot cost. -/
def loopStep (start endT : ℚ) (watt : ℤ) (st : LoopState) (entry : ℤ × ℚ) :
    LoopState :=
  let hour_start := entry.1
  let price := entry.2
  let hour_end : ℚ := (hour_start : ℚ) + 1
  let actual_start := max (hour_start : ℚ) start
  let actual_end := min hour_end endT
  let hour_fraction := actual_end - actual_start
  if hour_fraction ≤ 0 then st
  else
    let hour_kwh := hour_fraction * ((watt : ℚ) / 1000)
    let hour_spot_cost := hour_kwh * price
    { kwh := st.kwh + hour_kwh
      spot := st.spot + hour_spot_cost
      breakdown := st.breakdown ++
        [⟨hour_start, pyRound hour_fraction 2, pyRound price 4,
          pyRound hour_kwh 4, pyRound hour_spot_cost 2⟩] }

/-- The whole per-hour loop as a fold over `hourly_prices`. -/
def sessionLoop (start endT : ℚ) (watt : ℤ) (entries : List (ℤ × ℚ)) :
    LoopState :=
  entries.foldl (loopStep start endT watt) ⟨0, 0, []⟩

/-- The positive hour fractions the loop accumulates (lines 116-128): the
overlap of each priced hour with the session, skipping `hour_fraction <= 0`. -/
def usedFractions (start endT : ℚ) (priceAt : ℤ → Option ℚ) : List ℚ :=
  ((get_prices_for_period start endT priceAt).map
      (fun e => min ((e.1 : ℚ) + 1) endT - max (e.1 : ℚ) start)).filter
    (fun f => ¬ f ≤ 0)

/-- Python `calculate_session_cost(start_time, end_time, watt, fixed_cost_per_kwh,
region)`.  The two impure reads are parameters: `priceAt` stands for
`get_prices_for_period`'s per-hour resolution and `currentPrice` for
`get_current_price(region)` (only consulted on the fallback path). -/
def calculate_session_cost (start_time end_time : ℚ) (watt : ℤ)
    (fixed_cost_per_kwh : ℚ) (priceAt : ℤ → Option ℚ)
    (currentPrice : Option ℚ) : SessionResult :=
  let total_hours := end_time - start_time
  if total_hours ≤ 0 then
    ⟨0, 0, 0, 0, 0, 0, []⟩
  else
    let hourly_prices := get_prices_for_period start_time end_time priceAt
    if hourly_prices = [] then
      -- Fallback: use current price for entire session (lines 90-109)
      let current_price := currentPrice.getD (3/2)
      let kwh := total_hours * ((watt : ℚ) / 1000)
      let spot_cost := kwh * current_price
      let fixed_cost := kwh * fixed_cost_per_kwh
      ⟨pyRound total_hours 2, pyRound kwh 4, pyRound spot_cost 2,
        pyRound fixed_cost 2, pyRound (spot_cost + fixed_cost) 2,
        pyRound current_price 4, []⟩
    else
      let st := sessionLoop start_time end_time watt hourly_prices
      let total_fixed_cost := st.kwh * fixed_cost_per_kwh
      let avg_spot_price := if st.kwh > 0 then st.spot / st.kwh else 0
      ⟨pyRound total_hours 2, pyRound st.kwh 4, pyRound st.spot 2,
        pyRound total_fixed_cost 2, pyRound (st.spot + total_fixed_cost) 2,
        pyRound avg_spot_price 4, st.breakdown⟩

/-- Python `estimate_current_cost(start_time, watt, fixed_cost_per_kwh, region)`
(lines 162-173): the clock value `now = datetime.now(NORWAY_TZ)` is an
explicit parameter. -/
def estimate_current_cost (start_time : ℚ) (watt : ℤ)
    (fixed_cost_per_kwh : ℚ) (priceAt : ℤ → Option ℚ)
    (currentPrice : Option ℚ) (now : ℚ) : SessionResult :=
  calculate_session_cost start_time now watt fixed_cost_per_kwh priceAt
    currentPrice

/-! ## `database/models.py` — price cache (lines 343-373)

The `price_cache` table has `PRIMARY KEY (date, region, hour)`.  The TEXT
date column is modelled as an abstract day number `ℤ`, the database as the
list of its rows; SQLite's `INSERT OR REPLACE` deletes the row with the same
primary key (if any) and appends the new row. -/

/-- One row of the `price_cache` table. -/
structure CacheRow where
  date : ℤ
  region : String
  hour : ℤ
  price_nok : ℚ
  cached_at : ℤ
deriving DecidableEq, Repr

/-- Does the row have primary key `(date, region, hour)`? -/
def rowKeyIs (date : ℤ) (region : String) (hour : ℤ) (r : CacheRow) : Bool :=
  r.date = date ∧ r.region = region ∧ r.hour = hour

/-- SQLite `INSERT OR REPLACE INTO price_cache ...` for a single row. -/
def insertOrReplaceRow (db : List CacheRow) (r : CacheRow) : List CacheRow :=
  (db.filter (fun q => ¬ rowKeyIs r.date r.region r.hour q)) ++ [r]

/-- Python `cache_prices(date, region, prices)` (lines 343-356): one
`INSERT OR REPLACE` per `(hour, price)` pair, all committed together; the
`datetime.now()` timestamp written into `cached_at` is the parameter `now`. -/
def cache_prices (date : ℤ) (region : String) (prices : List (ℤ × ℚ))
    (now : ℤ) (db : List CacheRow) : List CacheRow :=
  prices.foldl (fun d hp => insertOrReplaceRow d ⟨date, region, hp.1, hp.2, now⟩) db

/-- Python `get_cached_prices(date, region)` (lines 359-373): select the rows for
the key; `None` when there are none, else the `hour -> price` mapping (the
primary key makes hours unique, so the row list itself represents the dict). -/
def get_cached_prices (date : ℤ) (region : String) (db : List CacheRow) :
    Option (List (ℤ × ℚ)) :=
  let rows := (db.filter (fun q => q.date = date ∧ q.region = region)).map
    (fun q => (q.hour, q.price_nok))
  if rows = [] then none else some rows

/-- The price stored for one `(date, region, hour)` primary key, if any. -/
def cachedPriceAt (date : ℤ) (region : String) (hour : ℤ)
    (db : List CacheRow) : Option ℚ :=
  (db.find? (rowKeyIs date region hour)).map (fun r => r.price_nok)

/-! ## `core/price_api.py` — `fetch_daily_prices` (lines 30-83) -/

/-- The constant `VALID_REGIONS`, the five region codes NO1..NO5. -/
def VALID_REGIONS : List String := ["NO1", "NO2", "NO3", "NO4", "NO5"]

/-- The constant `MVA_EXEMPT_REGIONS`, holding only NO4. -/
def MVA_EXEMPT_REGIONS : List String := ["NO4"]

/-- The constant `MVA_RATE = 0.25`. -/
def MVA_RATE : ℚ := 1/4

/-- Python dict assignment `d[k] = v`: update in place when the key exists
(keeping its position), else append. -/
def dictInsert (d : List (ℤ × ℚ)) (k : ℤ) (v : ℚ) : List (ℤ × ℚ) :=
  if d.any (fun p => p.1 = k) then
    d.map (fun p => if p.1 = k then (k, v) else p)
  else d ++ [(k, v)]

/-- The parse loop of lines 66-77: build the `prices` dict from the decoded
API entries `(hour, NOK_per_kWh)`, taxing and rounding each price. -/
def parsePrices (entries : List (ℤ × ℚ)) (mva_multiplier : ℚ) :
    List (ℤ × ℚ) :=
  entries.foldl
    (fun d e => dictInsert d e.1 (pyRound (e.2 * mva_multiplier) 5)) []

/-- Python `fetch_daily_prices(date, region)` (lines 30-83).  `api` is the decoded
upstream response for this date and region (`none` for a non-200 status,
timeout or exception), `now` the clock used for `cached_at`.  Returns the
function's value together with the cache database after the call. -/
def fetch_daily_prices (date : ℤ) (region : String)
    (api : Option (List (ℤ × ℚ))) (now : ℤ) (db : List CacheRow) :
    Option (List (ℤ × ℚ)) × List CacheRow :=
  if region ∉ VALID_REGIONS then (none, db)
  else
    match get_cached_prices date region db with
    | some cached => (some cached, db)
    | none =>
      match api with
      | none => (none, db)
      | some data =>
        let mva_multiplier : ℚ :=
          if region ∈ MVA_EXEMPT_REGIONS then 1 else 1 + MVA_RATE
        let prices := parsePrices data mva_multiplier
        (some prices, cache_prices date region prices now db)

/-- Python `get_price_for_hour(dt, region)` (lines 100-115) at absolute grid hour
`h`: fetch the day `h` belongs to, then look up `dt.hour` (`h mod 24`) in
the returned dict. -/
def get_price_for_hour (h : ℤ) (region : String)
    (api : Option (List (ℤ × ℚ))) (now : ℤ) (db : List CacheRow) :
    Option ℚ × List CacheRow :=
  let res := fetch_daily_prices (h.fdiv 24) region api now db
  match res.1 with
  | none => (none, res.2)
  | some prices => ((prices.lookup (h.emod 24)), res.2)

/-! ## `core/alerts.py` — `check_budget_alert` (lines 17-41) -/

/-- Which of the two budget messages is produced. -/
inductive BudgetAlert where
  | exceeded
  | warning
deriving DecidableEq, Repr

/-- Line 32, `sum(s.get("total_cost_nok", 0) or 0 for s in sessions)`:
a session's missing/NULL cost counts as 0. -/
def totalCostOfSessions (sessions : List (Option ℚ)) : ℚ :=
  (sessions.map (fun s => s.getD 0)).sum

/-- Python `check_budget_alert(user_id)` (lines 17-41), with the settings read and
the monthly-session query abstracted into the `budget` value (`None` when
unset) and the session cost list.  The two alert message strings are
represented by the `BudgetAlert` constructors. -/
def check_budget_alert (budget : Option ℚ) (sessions : List (Option ℚ)) :
    Option BudgetAlert :=
  match budget with
  | none => none
  | some b =>
    if b ≤ 0 then none
    else
      let total_cost := totalCostOfSessions sessions
      let percentage := total_cost / b * 100
      if percentage ≥ 100 then some .exceeded
      else if percentage ≥ 80 then some .warning
      else none

/-! ## `database/models.py` — `get_monthly_sessions` window (lines 210-246)

Python `datetime.date` is modelled as a `(year, month, day)` triple built by
`mkDate`, which returns `none` exactly when the constructor would raise
`ValueError` (day out of range for the month, month outside 1-12, year
outside `MINYEAR..MAXYEAR = 1..9999`). -/

/-- Python `calendar.isleap`. -/
def isLeapYear (y : ℤ) : Bool := (y % 4 = 0 ∧ ¬ y % 100 = 0) ∨ y % 400 = 0

/-- Python `calendar.monthrange(year, month)[1]`: days in the month. -/
def daysInMonth (y m : ℤ) : ℤ :=
  if m = 2 then (if isLeapYear y then 29 else 28)
  else if m = 4 ∨ m = 6 ∨ m = 9 ∨ m = 11 then 30
  else 31

/-- Python `datetime.date(y, m, d)`: `none` models the raised `ValueError`. -/
def mkDate (y m d : ℤ) : Option (ℤ × ℤ × ℤ) :=
  if 1 ≤ y ∧ y ≤ 9999 ∧ 1 ≤ m ∧ m ≤ 12 ∧ 1 ≤ d ∧ d ≤ daysInMonth y m then
    some (y, m, d)
  else none

/-- The billing-window computation of `get_monthly_sessions` (lines
219-231): the `[start_date, end_date]` pair the session query is run with,
`none` when a `date(...)` constructor raises. -/
def get_monthly_sessions_window (year month period_start_day : ℤ) :
    Option ((ℤ × ℤ × ℤ) × (ℤ × ℤ × ℤ)) :=
  if period_start_day = 1 then
    (mkDate year month 1).bind (fun s =>
      (mkDate year month (daysInMonth year month)).map (fun e => (s, e)))
  else
    let prev : ℤ × ℤ :=
      if month = 1 then (year - 1, 12) else (year, month - 1)
    (mkDate prev.1 prev.2 period_start_day).bind (fun s =>
      (if period_start_day > 1 then
          mkDate year month (period_start_day - 1)
        else mkDate year month (daysInMonth year month)).map
        (fun e => (s, e)))

/-- The record built by the fallback branch of `calculate_session_cost`
(lines 97-109) for a given whole-interval price. -/
def fallbackResult (s e : ℚ) (w : ℤ) (f price : ℚ) : SessionResult :=
  ⟨pyRound (e - s) 2, pyRound ((e - s) * ((w : ℚ) / 1000)) 4,
    pyRound ((e - s) * ((w : ℚ) / 1000) * price) 2,
    pyRound ((e - s) * ((w : ℚ) / 1000) * f) 2,
    pyRound ((e - s) * ((w : ℚ) / 1000) * price +
      (e - s) * ((w : ℚ) / 1000) * f) 2,
    pyRound price 4, []⟩

/-- Clamp a grid point into the interval `[s, e]`; the overlap fraction of
hour `h` with `[s, e]` telescopes as `gclamp (h+1) - gclamp h`. -/
def gclamp (s e : ℚ) (z : ℤ) : ℚ := max s (min e (z : ℚ))

/-! ## Helper lemmas -/

lemma floor_le_pyRoundInt (q : ℚ) : ⌊q⌋ ≤ pyRoundInt q := by
  unfold pyRoundInt
  dsimp only
  split_ifs <;> omega

lemma pyRoundInt_le_floor_add_one (q : ℚ) : pyRoundInt q ≤ ⌊q⌋ + 1 := by
  unfold pyRoundInt
  dsimp only
  split_ifs <;> omega

lemma pyRoundInt_mono {q1 q2 : ℚ} (h : q1 ≤ q2) :
    pyRoundInt q1 ≤ pyRoundInt q2 := by
  rcases lt_or_eq_of_le (Int.floor_mono h) with hf | hf
  · calc pyRoundInt q1 ≤ ⌊q1⌋ + 1 := pyRoundInt_le_floor_add_one q1
      _ ≤ ⌊q2⌋ := by omega
      _ ≤ pyRoundInt q2 := floor_le_pyRoundInt q2
  · unfold pyRoundInt
    dsimp only
    rw [← hf]
    have hr : q1 - (⌊q1⌋ : ℚ) ≤ q2 - (⌊q1⌋ : ℚ) := by linarith
    split_ifs <;> first
      | omega
      | linarith

lemma pyRoundInt_nonneg {q : ℚ} (h : 0 ≤ q) : 0 ≤ pyRoundInt q := by
  have h1 : (0 : ℤ) ≤ ⌊q⌋ := Int.floor_nonneg.mpr h
  have h2 := floor_le_pyRoundInt q
  omega

lemma pyRound_mono (n : ℕ) {q1 q2 : ℚ} (h : q1 ≤ q2) :
    pyRound q1 n ≤ pyRound q2 n := by
  unfold pyRound
  have hp : (0 : ℚ) < 10 ^ n := by positivity
  have h2 : ((pyRoundInt (q1 * 10 ^ n) : ℤ) : ℚ) ≤
      ((pyRoundInt (q2 * 10 ^ n) : ℤ) : ℚ) := by
    exact_mod_cast pyRoundInt_mono (mul_le_mul_of_nonneg_right h (le_of_lt hp))
  exact (div_le_div_iff_of_pos_right hp).mpr h2

lemma pyRound_nonneg (n : ℕ) {q : ℚ} (h : 0 ≤ q) : 0 ≤ pyRound q n := by
  unfold pyRound
  apply div_nonneg _ (by positivity)
  exact_mod_cast pyRoundInt_nonneg (mul_nonneg h (by positivity))

/-- Evaluation of `pyRound` at an integer times the scale. -/
lemma pyRoundInt_intCast (m : ℤ) : pyRoundInt (m : ℚ) = m := by
  unfold pyRoundInt
  rw [Int.floor_intCast]
  norm_num

/-- A resolver that never yields a price gives an empty period list. -/
lemma get_prices_for_period_none (s e : ℚ) :
    get_prices_for_period s e (fun _ => none) = [] := by
  simp [get_prices_for_period]

lemma mem_hourList {s e : ℚ} {h : ℤ} (hm : h ∈ hourList s e) :
    ⌊s⌋ ≤ h ∧ (h : ℚ) < e := by
  unfold hourList hourCount at hm
  simp only [List.mem_map, List.mem_range] at hm
  obtain ⟨i, hi, rfl⟩ := hm
  refine ⟨by omega, ?_⟩
  have hi2 : ⌊s⌋ + (i : ℤ) < ⌈e⌉ := by omega
  have := Int.lt_ceil.mp hi2
  push_cast at this ⊢
  exact this

lemma frac_pos {s e : ℚ} {h : ℤ} (h1 : ⌊s⌋ ≤ h) (h2 : (h : ℚ) < e)
    (hse : s < e) : 0 < min ((h : ℚ) + 1) e - max (h : ℚ) s := by
  have ha : s < (h : ℚ) + 1 := by
    have h3 := Int.lt_floor_add_one s
    have h4 : (⌊s⌋ : ℚ) ≤ (h : ℚ) := by exact_mod_cast h1
    linarith
  have hb : (h : ℚ) < (h : ℚ) + 1 := by linarith
  have hc : max (h : ℚ) s < min ((h : ℚ) + 1) e :=
    max_lt (lt_min hb h2) (lt_min ha hse)
  linarith

lemma frac_eq_gclamp {s e : ℚ} {h : ℤ} (h1 : ⌊s⌋ ≤ h) (h2 : (h : ℚ) < e)
    (hse : s < e) :
    min ((h : ℚ) + 1) e - max (h : ℚ) s =
      gclamp s e (h + 1) - gclamp s e h := by
  have ha : s ≤ (h : ℚ) + 1 := by
    have h3 := Int.lt_floor_add_one s
    have h4 : (⌊s⌋ : ℚ) ≤ (h : ℚ) := by exact_mod_cast h1
    linarith
  unfold gclamp
  have h3 : s ≤ min e ((h : ℚ) + 1) := le_min (le_of_lt hse) ha
  have h4 : min e (h : ℚ) = (h : ℚ) := min_eq_right (le_of_lt h2)
  have h5 : ((h + 1 : ℤ) : ℚ) = (h : ℚ) + 1 := by push_cast; ring
  rw [h5, max_eq_right h3, h4, min_comm ((h : ℚ) + 1) e, max_comm (h : ℚ) s]

lemma sum_range_sub (g : ℤ → ℚ) (a : ℤ) (n : ℕ) :
    ((List.range n).map
      (fun (i : ℕ) => g (a + (i : ℤ) + 1) - g (a + (i : ℤ)))).sum =
      g (a + (n : ℤ)) - g a := by
  induction n with
  | zero => simp
  | succ n ih =>
    rw [List.range_succ, List.map_append, List.sum_append, ih]
    push_cast
    simp only [List.map_cons, List.map_nil, List.sum_cons, List.sum_nil]
    ring_nf

/-- The overlap fractions over the visited hours telescope to the exact
interval length. -/
lemma sum_fracs (s e : ℚ) (hse : s < e) :
    ((hourList s e).map
      (fun (h : ℤ) => min ((h : ℚ) + 1) e - max (h : ℚ) s)).sum = e - s := by
  have hfl : ⌊s⌋ < ⌈e⌉ := by
    have h1 : (⌊s⌋ : ℚ) ≤ s := Int.floor_le s
    have h2 : e ≤ (⌈e⌉ : ℚ) := Int.le_ceil e
    exact_mod_cast lt_of_le_of_lt h1 (lt_of_lt_of_le hse h2)
  unfold hourList
  rw [List.map_map]
  rw [List.map_congr_left (g := fun i : ℕ =>
    gclamp s e (⌊s⌋ + (i : ℤ) + 1) - gclamp s e (⌊s⌋ + (i : ℤ))) ?_]
  · rw [sum_range_sub]
    have hn : ⌊s⌋ + (hourCount s e : ℤ) = ⌈e⌉ := by
      unfold hourCount; omega
    rw [hn]
    unfold gclamp
    rw [min_eq_left (Int.le_ceil e), max_eq_right (le_of_lt hse),
      min_eq_right (le_trans (Int.floor_le s) (le_of_lt hse)),
      max_eq_left (Int.floor_le s)]
  · intro i hi
    simp only [Function.comp_apply]
    apply frac_eq_gclamp (by omega) ?_ hse
    rw [List.mem_range] at hi
    have hi2 : ⌊s⌋ + (i : ℤ) < ⌈e⌉ := by unfold hourCount at hi; omega
    have := Int.lt_ceil.mp hi2
    push_cast at this ⊢
    exact this

lemma filterMap_some_eq_map {α β : Type} (l : List α) (f : α → β) :
    l.filterMap (fun a => some (f a)) = l.map f := by
  induction l with
  | nil => rfl
  | cons a t ih => simp [List.filterMap_cons, ih]

/-- With a total price curve, the period list pairs every visited hour with
its price. -/
lemma get_prices_for_period_total (s e : ℚ) (P : ℤ → ℚ) :
    get_prices_for_period s e (fun h => some (P h)) =
      (hourList s e).map (fun h => (h, P h)) := by
  unfold get_prices_for_period
  exact filterMap_some_eq_map _ _

lemma foldl_loopStep_kwh (s e : ℚ) (w : ℤ) (l : List (ℤ × ℚ)) :
    ∀ st : LoopState, (l.foldl (loopStep s e w) st).kwh =
      st.kwh + (l.map (fun en =>
        if (min ((en.1 : ℚ) + 1) e - max (en.1 : ℚ) s) ≤ 0 then 0
        else (min ((en.1 : ℚ) + 1) e - max (en.1 : ℚ) s) *
          ((w : ℚ) / 1000))).sum := by
  induction l with
  | nil => intro st; simp
  | cons a t ih =>
    intro st
    rw [List.foldl_cons, ih, List.map_cons, List.sum_cons]
    unfold loopStep
    dsimp only
    split_ifs with hf
    · ring
    · dsimp only
      ring

lemma foldl_loopStep_spot (s e : ℚ) (w : ℤ) (l : List (ℤ × ℚ)) :
    ∀ st : LoopState, (l.foldl (loopStep s e w) st).spot =
      st.spot + (l.map (fun en =>
        if (min ((en.1 : ℚ) + 1) e - max (en.1 : ℚ) s) ≤ 0 then 0
        else (min ((en.1 : ℚ) + 1) e - max (en.1 : ℚ) s) *
          ((w : ℚ) / 1000) * en.2)).sum := by
  induction l with
  | nil => intro st; simp
  | cons a t ih =>
    intro st
    rw [List.foldl_cons, ih, List.map_cons, List.sum_cons]
    unfold loopStep
    dsimp only
    split_ifs with hf
    · ring
    · dsimp only
      ring

lemma sessionLoop_kwh (s e : ℚ) (w : ℤ) (l : List (ℤ × ℚ)) :
    (sessionLoop s e w l).kwh = (l.map (fun en =>
      if (min ((en.1 : ℚ) + 1) e - max (en.1 : ℚ) s) ≤ 0 then 0
      else (min ((en.1 : ℚ) + 1) e - max (en.1 : ℚ) s) *
        ((w : ℚ) / 1000))).sum := by
  unfold sessionLoop
  rw [foldl_loopStep_kwh]
  norm_num

lemma sessionLoop_spot (s e : ℚ) (w : ℤ) (l : List (ℤ × ℚ)) :
    (sessionLoop s e w l).spot = (l.map (fun en =>
      if (min ((en.1 : ℚ) + 1) e - max (en.1 : ℚ) s) ≤ 0 then 0
      else (min ((en.1 : ℚ) + 1) e - max (en.1 : ℚ) s) *
        ((w : ℚ) / 1000) * en.2)).sum := by
  unfold sessionLoop
  rw [foldl_loopStep_spot]
  norm_num

/-- Python's `//` on integers is floor division. -/
lemma fdiv_two_eq_floor (a : ℤ) : a.fdiv 2 = ⌊((a : ℚ)) / 2⌋ := by
  rw [Int.fdiv_eq_ediv _ (by norm_num)]
  have h := Rat.floor_intCast_div_natCast a 2
  norm_num at h
  omega

/-- The degenerate branch of `calculate_session_cost` (lines 76-85). -/
lemma calculate_session_cost_of_nonpos (s e : ℚ) (w : ℤ) (f : ℚ)
    (pa : ℤ → Option ℚ) (cp : Option ℚ) (h : e ≤ s) :
    calculate_session_cost s e w f pa cp = ⟨0, 0, 0, 0, 0, 0, []⟩ := by
  unfold calculate_session_cost
  rw [if_pos (by linarith)]

/-- The fallback branch of `calculate_session_cost` (lines 90-109). -/
lemma calculate_session_cost_of_empty (s e : ℚ) (w : ℤ) (f : ℚ)
    (pa : ℤ → Option ℚ) (cp : Option ℚ) (hse : s < e)
    (hemp : get_prices_for_period s e pa = []) :
    calculate_session_cost s e w f pa cp =
      ⟨pyRound (e - s) 2, pyRound ((e - s) * ((w : ℚ) / 1000)) 4,
        pyRound ((e - s) * ((w : ℚ) / 1000) * cp.getD (3/2)) 2,
        pyRound ((e - s) * ((w : ℚ) / 1000) * f) 2,
        pyRound ((e - s) * ((w : ℚ) / 1000) * cp.getD (3/2) +
          (e - s) * ((w : ℚ) / 1000) * f) 2,
        pyRound (cp.getD (3/2)) 4, []⟩ := by
  unfold calculate_session_cost
  rw [if_neg (by linarith), if_pos hemp]

/-- The normal per-hour branch of `calculate_session_cost` (lines 111-159). -/
lemma calculate_session_cost_of_ne (s e : ℚ) (w : ℤ) (f : ℚ)
    (pa : ℤ → Option ℚ) (cp : Option ℚ) (hse : s < e)
    (hne : get_prices_for_period s e pa ≠ []) :
    calculate_session_cost s e w f pa cp =
      (fun st =>
        (⟨pyRound (e - s) 2, pyRound st.kwh 4, pyRound st.spot 2,
          pyRound (st.kwh * f) 2, pyRound (st.spot + st.kwh * f) 2,
          pyRound (if st.kwh > 0 then st.spot / st.kwh else 0) 4,
          st.breakdown⟩ : SessionResult))
        (sessionLoop s e w (get_prices_for_period s e pa)) := by
  unfold calculate_session_cost
  rw [if_neg (by linarith), if_neg hne]

/-! ## C1 — complete fetch failure falls back, never fails -/

/-- C1: for every interval with `start < end`, wattage, fixed cost and
price environment, if no hour of the interval yields a usable hourly price
(the period list is empty), the cost call performs a single whole-interval
calculation at the current spot price, and when the current price is also
unavailable it uses the fixed emergency price `3/2` (1.5 NOK/kWh); in both
cases it returns the (total, well-defined) fallback `SessionResult` — the
embedding is a total function, so the call never fails. -/
theorem C1_complete_failure_fallback (s e : ℚ) (w : ℤ) (f : ℚ)
    (pa : ℤ → Option ℚ) (cp : Option ℚ) (hse : s < e)
    (hemp : get_prices_for_period s e pa = []) :
    (∀ p : ℚ, cp = some p →
      calculate_session_cost s e w f pa cp = fallbackResult s e w f p) ∧
    (cp = none →
      calculate_session_cost s e w f pa cp =
        fallbackResult s e w f (3/2)) := by
  constructor
  · intro p hp
    subst hp
    exact calculate_session_cost_of_empty s e w f pa (some p) hse hemp
  · intro hp
    subst hp
    exact calculate_session_cost_of_empty s e w f pa none hse hemp

/-- Witness for C1: a 2-hour interval, no hourly price and no current
price; the result uses the emergency price 1.5. -/
theorem C1_complete_failure_fallback_witness :
    (0 : ℚ) < 2 ∧ get_prices_for_period 0 2 (fun _ => none) = [] ∧
    calculate_session_cost 0 2 1000 1 (fun _ => none) none =
      fallbackResult 0 2 1000 1 (3/2) := by
  refine ⟨by norm_num, by decide, ?_⟩
  exact (C1_complete_failure_fallback 0 2 1000 1 (fun _ => none) none
    (by norm_num) (by decide)).2 rfl

/-! ## C2 — invalid regions (corrected)

The code raises no `InvalidRegion` (or any other) exception: for a region
outside `VALID_REGIONS`, `fetch_daily_prices` logs and returns `None`
before consulting the cache or the network (lines 37-39), and every
downstream consumer treats that like any other pricing failure, degrading
to the emergency-price fallback instead of surfacing a hard error. -/

/-- C2 counterexample: for the invalid region `"XX"` the price-curve
request does not fail — it returns `None` (with the cache untouched) even
though the upstream data is available, and the end-to-end cost calculation
still succeeds, producing the emergency-price result.  This falsifies the
claim that an invalid region surfaces a hard `InvalidRegion` error. -/
theorem C2_invalid_region_counterexample :
    fetch_daily_prices 0 "XX" (some [(0, 1)]) 5 [] = (none, []) ∧
    calculate_session_cost 0 2 1000 1 (fun _ => none) none =
      ⟨2, 2, 3, 2, 5, 3/2, []⟩ := by
  refine ⟨by decide, ?_⟩
  rw [calculate_session_cost_of_empty 0 2 1000 1 (fun _ => none) none
    (by norm_num) (by decide)]
  norm_num [pyRound, pyRoundInt, Option.getD]

/-- C2 (amended): for every region outside `{NO1..NO5}` the price-curve
request is rejected before any fetch is attempted — it returns `None` and
leaves the cache unchanged whatever the cache contents and upstream
response — and `get_price_for_hour` likewise yields nothing; no hard error
is raised: like every pricing failure, the invalid region is absorbed into
a degraded-but-successful result (the cost call, fed the all-`None`
resolver such a region induces, still returns the fallback result). -/
theorem C2_invalid_region_absorbed (region : String)
    (hreg : region ∉ VALID_REGIONS) :
    (∀ (date : ℤ) (api : Option (List (ℤ × ℚ))) (now : ℤ)
      (db : List CacheRow),
      fetch_daily_prices date region api now db = (none, db)) ∧
    (∀ (h : ℤ) (api : Option (List (ℤ × ℚ))) (now : ℤ)
      (db : List CacheRow),
      get_price_for_hour h region api now db = (none, db)) ∧
    (∀ (s e : ℚ) (w : ℤ) (f : ℚ) (cp : Option ℚ), s < e →
      calculate_session_cost s e w f (fun _ => none) cp =
        fallbackResult s e w f (cp.getD (3/2))) := by
  have hfetch : ∀ (date : ℤ) (api : Option (List (ℤ × ℚ))) (now : ℤ)
      (db : List CacheRow),
      fetch_daily_prices date region api now db = (none, db) := by
    intro date api now db
    unfold fetch_daily_prices
    rw [if_pos hreg]
  refine ⟨hfetch, ?_, ?_⟩
  · intro h api now db
    unfold get_price_for_hour
    rw [hfetch]
  · intro s e w f cp hse
    have h := calculate_session_cost_of_empty s e w f (fun _ => none) cp hse
      (get_prices_for_period_none s e)
    rw [h]
    rfl

/-- Witness for C2 (amended) at the concrete invalid region `"NO9"`. -/
theorem C2_invalid_region_absorbed_witness :
    "NO9" ∉ VALID_REGIONS ∧
    fetch_daily_prices 3 "NO9" (some [(1, 2)]) 7 [] = (none, []) := by
  exact ⟨by decide,
    (C2_invalid_region_absorbed "NO9" (by decide)).1 3 (some [(1, 2)]) 7 []⟩

/-! ## C3 — overlap fractions (corrected)

`get_prices_for_period` keeps only the hours whose price resolves
(`if price is not None`, line 141), so an hour with no resolvable price is
silently omitted from the per-hour loop: its overlap does not contribute,
and the fractions then sum to less than the interval length. -/

/-- C3 counterexample: over the interval `[0, 2)` with a curve that prices
hour 0 but not hour 1, the period list omits hour 1 entirely, the overlap
fractions the engine uses sum to 1, not to the interval duration 2.  This
falsifies both the unconditional sum property and the claim that an
unresolvable hour still contributes its overlap. -/
theorem C3_counterexample :
    get_prices_for_period 0 2 (fun h => if h = 0 then some 1 else none) =
      [(0, 1)] ∧
    (usedFractions 0 2 (fun h => if h = 0 then some 1 else none)).sum = 1 ∧
    (1 : ℚ) ≠ 2 - 0 := by
  have h1 : get_prices_for_period 0 2
      (fun h => if h = 0 then some 1 else none) = [(0, 1)] := by decide
  refine ⟨h1, ?_, by norm_num⟩
  unfold usedFractions
  rw [h1]
  norm_num [List.filter, min_def, max_def]

/-- C3 (amended): on the normal per-hour path, *when every hour of the
interval resolves a price* (total curve `P`), the positive overlap
fractions the loop uses sum to exactly the interval's duration `e - s`
(exactly — the rationals carry no rounding error), and consequently the
accumulated energy is exactly `(e - s) · watt/1000`; an hour with no
resolvable price does not fail the calculation but is omitted, contributing
nothing (see the counterexample). -/
theorem C3_overlap_fraction_sum (s e : ℚ) (P : ℤ → ℚ) (w : ℤ)
    (hse : s < e) :
    (usedFractions s e (fun h => some (P h))).sum = e - s ∧
    (sessionLoop s e w
        (get_prices_for_period s e (fun h => some (P h)))).kwh =
      (e - s) * ((w : ℚ) / 1000) := by
  have hmap :
      (get_prices_for_period s e (fun h => some (P h))).map
        (fun en => min ((en.1 : ℚ) + 1) e - max (en.1 : ℚ) s) =
      (hourList s e).map
        (fun (h : ℤ) => min ((h : ℚ) + 1) e - max (h : ℚ) s) := by
    rw [get_prices_for_period_total, List.map_map]
    rfl
  have hpos : ∀ a ∈ (hourList s e).map
      (fun (h : ℤ) => min ((h : ℚ) + 1) e - max (h : ℚ) s), 0 < a := by
    intro a ha
    rw [List.mem_map] at ha
    obtain ⟨h, hh, rfl⟩ := ha
    obtain ⟨hb1, hb2⟩ := mem_hourList hh
    exact frac_pos hb1 hb2 hse
  constructor
  · unfold usedFractions
    rw [hmap, List.filter_eq_self.mpr ?_, sum_fracs s e hse]
    intro a ha
    simpa using not_le.mpr (hpos a ha)
  · rw [sessionLoop_kwh, get_prices_for_period_total, List.map_map]
    rw [List.map_congr_left (g := fun (h : ℤ) =>
      (min ((h : ℚ) + 1) e - max (h : ℚ) s) * ((w : ℚ) / 1000)) ?_]
    · rw [List.sum_map_mul_right, sum_fracs s e hse]
    · intro h hh
      obtain ⟨hb1, hb2⟩ := mem_hourList hh
      simp only [Function.comp_apply]
      rw [if_neg (not_le.mpr (frac_pos hb1 hb2 hse))]

/-- Witness for C3 (amended): a flat total curve over `[0, 2)`. -/
theorem C3_overlap_fraction_sum_witness :
    (0 : ℚ) < 2 ∧
    (usedFractions 0 2 (fun _ => some 1)).sum = 2 - 0 := by
  exact ⟨by norm_num,
    (C3_overlap_fraction_sum 0 2 (fun _ => 1) 1000 (by norm_num)).1⟩

/-! ## C9 — estimate is cost at `now`, monotone over time -/

lemma hourCount_mono (s : ℚ) {t1 t2 : ℚ} (h : t1 ≤ t2) :
    hourCount s t1 ≤ hourCount s t2 := by
  unfold hourCount
  have := Int.ceil_le_ceil h
  omega

lemma hourList_extend (s : ℚ) {t1 t2 : ℚ} (h : t1 ≤ t2) :
    ∃ ext : List ℤ, hourList s t2 = hourList s t1 ++ ext := by
  have hsplit := List.range_add (hourCount s t1)
    (hourCount s t2 - hourCount s t1)
  rw [Nat.add_sub_cancel' (hourCount_mono s h)] at hsplit
  refine ⟨((List.range (hourCount s t2 - hourCount s t1)).map
    (fun x => hourCount s t1 + x)).map (fun (i : ℕ) => ⌊s⌋ + (i : ℤ)), ?_⟩
  unfold hourList
  rw [hsplit, List.map_append]

lemma contribK_nonneg (s e : ℚ) {w : ℤ} (hw : 0 ≤ w) (en : ℤ × ℚ) :
    0 ≤ (if (min ((en.1 : ℚ) + 1) e - max (en.1 : ℚ) s) ≤ 0 then 0
      else (min ((en.1 : ℚ) + 1) e - max (en.1 : ℚ) s) * ((w : ℚ) / 1000)) := by
  have hc : (0 : ℚ) ≤ (w : ℚ) / 1000 :=
    div_nonneg (by exact_mod_cast hw) (by norm_num)
  split_ifs with h1
  · exact le_refl 0
  · exact mul_nonneg (by linarith [not_le.mp h1]) hc

lemma contribS_nonneg (s e : ℚ) {w : ℤ} (hw : 0 ≤ w) (en : ℤ × ℚ)
    (hp : 0 ≤ en.2) :
    0 ≤ (if (min ((en.1 : ℚ) + 1) e - max (en.1 : ℚ) s) ≤ 0 then 0
      else (min ((en.1 : ℚ) + 1) e - max (en.1 : ℚ) s) *
        ((w : ℚ) / 1000) * en.2) := by
  have hc : (0 : ℚ) ≤ (w : ℚ) / 1000 :=
    div_nonneg (by exact_mod_cast hw) (by norm_num)
  split_ifs with h1
  · exact le_refl 0
  · exact mul_nonneg (mul_nonneg (by linarith [not_le.mp h1]) hc) hp

lemma contribK_mono (s : ℚ) {t1 t2 : ℚ} (h12 : t1 ≤ t2) {w : ℤ}
    (hw : 0 ≤ w) (en : ℤ × ℚ) :
    (if (min ((en.1 : ℚ) + 1) t1 - max (en.1 : ℚ) s) ≤ 0 then 0
      else (min ((en.1 : ℚ) + 1) t1 - max (en.1 : ℚ) s) * ((w : ℚ) / 1000)) ≤
    (if (min ((en.1 : ℚ) + 1) t2 - max (en.1 : ℚ) s) ≤ 0 then 0
      else (min ((en.1 : ℚ) + 1) t2 - max (en.1 : ℚ) s) *
        ((w : ℚ) / 1000)) := by
  have hc : (0 : ℚ) ≤ (w : ℚ) / 1000 :=
    div_nonneg (by exact_mod_cast hw) (by norm_num)
  have hfr : min ((en.1 : ℚ) + 1) t1 - max (en.1 : ℚ) s ≤
      min ((en.1 : ℚ) + 1) t2 - max (en.1 : ℚ) s := by
    have := min_le_min (le_refl ((en.1 : ℚ) + 1)) h12
    linarith
  split_ifs with h1 h2 h2
  · exact le_refl 0
  · exact mul_nonneg (by linarith [not_le.mp h2]) hc
  · exact absurd (le_trans hfr h2) h1
  · exact mul_le_mul_of_nonneg_right hfr hc

lemma contribS_mono (s : ℚ) {t1 t2 : ℚ} (h12 : t1 ≤ t2) {w : ℤ}
    (hw : 0 ≤ w) (en : ℤ × ℚ) (hp : 0 ≤ en.2) :
    (if (min ((en.1 : ℚ) + 1) t1 - max (en.1 : ℚ) s) ≤ 0 then 0
      else (min ((en.1 : ℚ) + 1) t1 - max (en.1 : ℚ) s) *
        ((w : ℚ) / 1000) * en.2) ≤
    (if (min ((en.1 : ℚ) + 1) t2 - max (en.1 : ℚ) s) ≤ 0 then 0
      else (min ((en.1 : ℚ) + 1) t2 - max (en.1 : ℚ) s) *
        ((w : ℚ) / 1000) * en.2) := by
  have hc : (0 : ℚ) ≤ (w : ℚ) / 1000 :=
    div_nonneg (by exact_mod_cast hw) (by norm_num)
  have hfr : min ((en.1 : ℚ) + 1) t1 - max (en.1 : ℚ) s ≤
      min ((en.1 : ℚ) + 1) t2 - max (en.1 : ℚ) s := by
    have := min_le_min (le_refl ((en.1 : ℚ) + 1)) h12
    linarith
  split_ifs with h1 h2 h2
  · exact le_refl 0
  · exact mul_nonneg (mul_nonneg (by linarith [not_le.mp h2]) hc) hp
  · exact absurd (le_trans hfr h2) h1
  · exact mul_le_mul_of_nonneg_right
      (mul_le_mul_of_nonneg_right hfr hc) hp

lemma sum_map_le_of_extend {α : Type} (l1 ext : List α) (c1 c2 : α → ℚ)
    (hpt : ∀ x, c1 x ≤ c2 x) (hnn : ∀ x, 0 ≤ c2 x) :
    (l1.map c1).sum ≤ ((l1 ++ ext).map c2).sum := by
  rw [List.map_append, List.sum_append]
  have h1 : (l1.map c1).sum ≤ (l1.map c2).sum :=
    List.sum_le_sum (fun a _ => hpt a)
  have h2 : 0 ≤ (ext.map c2).sum := by
    apply List.sum_nonneg
    intro x hx
    rw [List.mem_map] at hx
    obtain ⟨a, _, rfl⟩ := hx
    exact hnn a
  linarith

lemma sessionLoop_kwh_mono (s : ℚ) {t1 t2 : ℚ} (P : ℤ → ℚ) {w : ℤ}
    (h12 : t1 ≤ t2) (hw : 0 ≤ w) :
    (sessionLoop s t1 w
      (get_prices_for_period s t1 (fun h => some (P h)))).kwh ≤
    (sessionLoop s t2 w
      (get_prices_for_period s t2 (fun h => some (P h)))).kwh := by
  rw [sessionLoop_kwh, sessionLoop_kwh, get_prices_for_period_total,
    get_prices_for_period_total, List.map_map, List.map_map]
  obtain ⟨ext, hext⟩ := hourList_extend s h12
  rw [hext]
  apply sum_map_le_of_extend
  · intro x
    exact contribK_mono s h12 hw (x, P x)
  · intro x
    exact contribK_nonneg s t2 hw (x, P x)

lemma sessionLoop_spot_mono (s : ℚ) {t1 t2 : ℚ} (P : ℤ → ℚ) {w : ℤ}
    (h12 : t1 ≤ t2) (hw : 0 ≤ w) (hP : ∀ h, 0 ≤ P h) :
    (sessionLoop s t1 w
      (get_prices_for_period s t1 (fun h => some (P h)))).spot ≤
    (sessionLoop s t2 w
      (get_prices_for_period s t2 (fun h => some (P h)))).spot := by
  rw [sessionLoop_spot, sessionLoop_spot, get_prices_for_period_total,
    get_prices_for_period_total, List.map_map, List.map_map]
  obtain ⟨ext, hext⟩ := hourList_extend s h12
  rw [hext]
  apply sum_map_le_of_extend
  · intro x
    exact contribS_mono s h12 hw (x, P x) (hP x)
  · intro x
    exact contribS_nonneg s t2 hw (x, P x) (hP x)

lemma sessionLoop_kwh_nonneg (s t : ℚ) (P : ℤ → ℚ) {w : ℤ} (hw : 0 ≤ w) :
    0 ≤ (sessionLoop s t w
      (get_prices_for_period s t (fun h => some (P h)))).kwh := by
  rw [sessionLoop_kwh]
  apply List.sum_nonneg
  intro x hx
  rw [List.mem_map] at hx
  obtain ⟨en, _, rfl⟩ := hx
  exact contribK_nonneg s t hw en

lemma sessionLoop_spot_nonneg (s t : ℚ) (P : ℤ → ℚ) {w : ℤ} (hw : 0 ≤ w)
    (hP : ∀ h, 0 ≤ P h) :
    0 ≤ (sessionLoop s t w
      (get_prices_for_period s t (fun h => some (P h)))).spot := by
  rw [sessionLoop_spot]
  apply List.sum_nonneg
  intro x hx
  rw [List.mem_map] at hx
  obtain ⟨en, hen, rfl⟩ := hx
  apply contribS_nonneg s t hw en
  rw [get_prices_for_period_total, List.mem_map] at hen
  obtain ⟨h, _, rfl⟩ := hen
  exact hP h

lemma get_prices_for_period_total_ne (s t : ℚ) (P : ℤ → ℚ) (hst : s < t) :
    get_prices_for_period s t (fun h => some (P h)) ≠ [] := by
  rw [get_prices_for_period_total]
  intro hempty
  have h0 : hourCount s t ≠ 0 := by
    unfold hourCount
    have hfl : ⌊s⌋ < ⌈t⌉ := by
      have h1 : (⌊s⌋ : ℚ) ≤ s := Int.floor_le s
      have h2 : t ≤ (⌈t⌉ : ℚ) := Int.le_ceil t
      exact_mod_cast lt_of_le_of_lt h1 (lt_of_lt_of_le hst h2)
    omega
  apply h0
  have h1 : hourList s t = [] := by simpa using hempty
  unfold hourList at h1
  simpa using h1

/-- C9: `estimate_current_cost` performs the identical computation as
`calculate_session_cost` with `end = now` (first conjunct, an equality for
every clock value); and over a fixed start, non-negative wattage and fixed
cost, and a stable total non-negative price curve `P` (the spec's
`PriceCurve` invariant), two estimates at `t1 ≤ t2` have non-decreasing
energy and total cost. -/
theorem C9_estimate_monotone (s : ℚ) (w : ℤ) (f : ℚ) (P : ℤ → ℚ)
    (cp : Option ℚ) (t1 t2 : ℚ) (h12 : t1 ≤ t2) (hw : 0 ≤ w) (hf : 0 ≤ f)
    (hP : ∀ h, 0 ≤ P h) :
    (∀ now : ℚ, estimate_current_cost s w f (fun h => some (P h)) cp now =
      calculate_session_cost s now w f (fun h => some (P h)) cp) ∧
    (estimate_current_cost s w f (fun h => some (P h)) cp t1).kwh ≤
      (estimate_current_cost s w f (fun h => some (P h)) cp t2).kwh ∧
    (estimate_current_cost s w f (fun h => some (P h)) cp t1).total_cost ≤
      (estimate_current_cost s w f (fun h => some (P h)) cp t2).total_cost := by
  refine ⟨fun _ => rfl, ?_⟩
  show (calculate_session_cost s t1 w f (fun h => some (P h)) cp).kwh ≤
      (calculate_session_cost s t2 w f (fun h => some (P h)) cp).kwh ∧
    (calculate_session_cost s t1 w f (fun h => some (P h)) cp).total_cost ≤
      (calculate_session_cost s t2 w f (fun h => some (P h)) cp).total_cost
  by_cases ht2 : t2 ≤ s
  · rw [calculate_session_cost_of_nonpos s t1 w f _ cp (le_trans h12 ht2),
      calculate_session_cost_of_nonpos s t2 w f _ cp ht2]
    exact ⟨le_refl 0, le_refl 0⟩
  · have hst2 : s < t2 := not_le.mp ht2
    by_cases ht1 : t1 ≤ s
    · rw [calculate_session_cost_of_nonpos s t1 w f _ cp ht1,
        calculate_session_cost_of_ne s t2 w f _ cp hst2
          (get_prices_for_period_total_ne s t2 P hst2)]
      dsimp only
      constructor
      · exact pyRound_nonneg 4 (sessionLoop_kwh_nonneg s t2 P hw)
      · apply pyRound_nonneg 2
        have h1 := sessionLoop_spot_nonneg s t2 P hw hP
        have h2 := sessionLoop_kwh_nonneg s t2 P hw
        have h3 : 0 ≤ (sessionLoop s t2 w
            (get_prices_for_period s t2 (fun h => some (P h)))).kwh * f :=
          mul_nonneg h2 hf
        linarith
    · have hst1 : s < t1 := not_le.mp ht1
      rw [calculate_session_cost_of_ne s t1 w f _ cp hst1
          (get_prices_for_period_total_ne s t1 P hst1),
        calculate_session_cost_of_ne s t2 w f _ cp hst2
          (get_prices_for_period_total_ne s t2 P hst2)]
      dsimp only
      have hk := sessionLoop_kwh_mono s P h12 hw
      have hs := sessionLoop_spot_mono s P h12 hw hP
      constructor
      · exact pyRound_mono 4 hk
      · apply pyRound_mono 2
        have h3 := mul_le_mul_of_nonneg_right hk hf
        linarith

/-- Witness for C9 at a concrete open session: start 0, watt 1000, fixed
cost 1, flat unit curve, estimates at `now = 1` and `now = 2`. -/
theorem C9_estimate_monotone_witness :
    (1 : ℚ) ≤ 2 ∧ (0 : ℤ) ≤ 1000 ∧ (0 : ℚ) ≤ 1 ∧
    (estimate_current_cost 0 1000 1 (fun _ => some 1) none 1).kwh ≤
      (estimate_current_cost 0 1000 1 (fun _ => some 1) none 2).kwh ∧
    (estimate_current_cost 0 1000 1 (fun _ => some 1) none 1).total_cost ≤
      (estimate_current_cost 0 1000 1 (fun _ => some 1) none 2).total_cost := by
  have h := C9_estimate_monotone 0 1000 1 (fun _ => 1) none 1 2
    (by norm_num) (by norm_num) (by norm_num) (fun _ => by norm_num)
  exact ⟨by norm_num, by norm_num, by norm_num, h.2.1, h.2.2⟩

/-! ## C5 — billing window (corrected) -/

lemma daysInMonth_ge_28 (y m : ℤ) : 28 ≤ daysInMonth y m := by
  unfold daysInMonth
  split_ifs <;> norm_num

lemma daysInMonth_le_31 (y m : ℤ) : daysInMonth y m ≤ 31 := by
  unfold daysInMonth
  split_ifs <;> norm_num

lemma mkDate_eq_some (y m d : ℤ) (hy : 1 ≤ y) (hy2 : y ≤ 9999)
    (hm : 1 ≤ m) (hm2 : m ≤ 12) (hd : 1 ≤ d) (hd2 : d ≤ daysInMonth y m) :
    mkDate y m d = some (y, m, d) := by
  unfold mkDate
  rw [if_pos ⟨hy, hy2, hm, hm2, hd, hd2⟩]

/-- C5 counterexample: for `(year, month) = (2025, 3)` and
`periodStartDay = 30` the claim predicts the window
`[2025-02-30, 2025-03-29]`, but February 2025 has 28 days, so the
`date(...)` constructor raises `ValueError` (modelled as `none`) and no
window is produced: the claim's universal quantification over every
`periodStartDay` fails. -/
theorem C5_window_counterexample :
    get_monthly_sessions_window 2025 3 30 = none := by decide

/-- C5 (amended): for every period start day that names an existing day in
both adjacent months — `d` exists in the month preceding `(year, month)`
(hypothesis `hprev`) and in `(year, month)` itself (hypothesis `hcur`),
which in particular holds for the whole range `1 ≤ d ≤ 28` the settings
command accepts, and also for days like 29 next to a 31-day month — the
window computation is as claimed: `d = 1` yields the calendar month
`[first, last day of (year, month)]`, and `d > 1` yields the window from
day `d` of the preceding month (December of `year − 1` when the month is
January) to day `d − 1` of `(year, month)`; in particular `d = 5` with
`(2025, 3)` yields `[2025-02-05, 2025-03-04]`. -/
theorem C5_window (year month d : ℤ) (hy : 1 ≤ year) (hy2 : year ≤ 9999)
    (hm : 1 ≤ month) (hm2 : month ≤ 12) (hd : 1 ≤ d)
    (hprev : d ≤ daysInMonth (if month = 1 then year - 1 else year)
      (if month = 1 then 12 else month - 1))
    (hcur : d ≤ daysInMonth year month)
    (hjan : month = 1 → 2 ≤ year) :
    (d = 1 → get_monthly_sessions_window year month d =
      some ((year, month, 1), (year, month, daysInMonth year month))) ∧
    (1 < d → get_monthly_sessions_window year month d =
      some ((if month = 1 then year - 1 else year,
             if month = 1 then 12 else month - 1, d),
            (year, month, d - 1))) ∧
    get_monthly_sessions_window 2025 3 5 =
      some ((2025, 2, 5), (2025, 3, 4)) := by
  refine ⟨?_, ?_, by decide⟩
  · intro h1
    subst h1
    unfold get_monthly_sessions_window
    rw [if_pos rfl,
      mkDate_eq_some year month 1 hy hy2 hm hm2 le_rfl
        (le_trans (by norm_num) (daysInMonth_ge_28 year month)),
      mkDate_eq_some year month (daysInMonth year month) hy hy2 hm hm2
        (le_trans (by norm_num) (daysInMonth_ge_28 year month)) le_rfl]
    rfl
  · intro h1
    unfold get_monthly_sessions_window
    rw [if_neg (by omega)]
    split_ifs with hm1
    · simp only [if_pos hm1] at hprev
      dsimp only
      rw [mkDate_eq_some (year - 1) 12 d (by have := hjan hm1; omega)
          (by omega) (by norm_num) (by norm_num) hd hprev,
        mkDate_eq_some year month (d - 1) hy hy2 hm hm2 (by omega)
          (by omega)]
      rfl
    · simp only [if_neg hm1] at hprev
      dsimp only
      rw [mkDate_eq_some year (month - 1) d hy hy2 (by omega) (by omega) hd
          hprev,
        mkDate_eq_some year month (d - 1) hy hy2 hm hm2 (by omega)
          (by omega)]
      rfl

/-- Witness for C5 (amended) at `(2025, 4)` with period start day 29 — a
value outside the 1..28 settings range whose day nevertheless exists in
both March and April 2025, yielding the window `[2025-03-29, 2025-04-28]`. -/
theorem C5_window_witness :
    (1 : ℤ) < 29 ∧
    (29 : ℤ) ≤ daysInMonth (if (4 : ℤ) = 1 then 2025 - 1 else 2025)
      (if (4 : ℤ) = 1 then 12 else 4 - 1) ∧
    (29 : ℤ) ≤ daysInMonth 2025 4 ∧
    get_monthly_sessions_window 2025 4 29 =
      some (((if (4 : ℤ) = 1 then 2025 - 1 else 2025),
             (if (4 : ℤ) = 1 then 12 else 4 - 1), 29), (2025, 4, 29 - 1)) := by
  refine ⟨by norm_num, by decide, by decide, ?_⟩
  exact (C5_window 2025 4 29 (by norm_num) (by norm_num) (by norm_num)
    (by norm_num) (by norm_num) (by decide) (by decide) (by norm_num)).2.1
    (by norm_num)

/-! ## C4 — price-cache writes (corrected)

`cache_prices` runs one `INSERT OR REPLACE` per supplied row and never
deletes: a write only upserts the hours it is given, so rows for other
hours of the same `(date, region)` key survive, and a write of fewer than
24 entries leaves a partial curve that `get_cached_prices` happily
returns. -/

lemma find?_filter_of_imp {α : Type} (l : List α) (p q : α → Bool)
    (himp : ∀ x, p x = true → q x = true) :
    (l.filter q).find? p = l.find? p := by
  induction l with
  | nil => rfl
  | cons a t ih =>
    by_cases hq : q a = true
    · rw [List.filter_cons_of_pos hq]
      by_cases hp : p a = true
      · rw [List.find?_cons_of_pos t hp, List.find?_cons_of_pos _ hp]
      · rw [List.find?_cons_of_neg t (by simpa using hp),
          List.find?_cons_of_neg _ (by simpa using hp), ih]
    · have hp : ¬ p a = true := fun hpa => hq (himp a hpa)
      rw [List.filter_cons_of_neg (by simpa using hq), ih,
        List.find?_cons_of_neg t (by simpa using hp)]

lemma cachedPriceAt_insert_same (db : List CacheRow) (r : CacheRow) :
    cachedPriceAt r.date r.region r.hour (insertOrReplaceRow db r) =
      some r.price_nok := by
  unfold cachedPriceAt insertOrReplaceRow
  rw [List.find?_append]
  have h1 : (db.filter
      (fun q => ¬ rowKeyIs r.date r.region r.hour q)).find?
        (rowKeyIs r.date r.region r.hour) = none := by
    apply List.find?_eq_none.mpr
    intro x hx
    rw [List.mem_filter] at hx
    simpa using hx.2
  rw [h1]
  simp [List.find?, rowKeyIs]

lemma cachedPriceAt_insert_ne (db : List CacheRow) (r : CacheRow)
    (d2 : ℤ) (r2 : String) (h2 : ℤ)
    (hne : ¬(d2 = r.date ∧ r2 = r.region ∧ h2 = r.hour)) :
    cachedPriceAt d2 r2 h2 (insertOrReplaceRow db r) =
      cachedPriceAt d2 r2 h2 db := by
  unfold cachedPriceAt insertOrReplaceRow
  rw [List.find?_append]
  have hkey : ∀ x : CacheRow, rowKeyIs d2 r2 h2 x = true →
      (¬ rowKeyIs r.date r.region r.hour x : Bool) = true := by
    intro x hx
    simp only [rowKeyIs, decide_eq_true_eq] at hx ⊢
    rintro ⟨e1, e2, e3⟩
    exact hne ⟨hx.1.symm.trans e1, hx.2.1.symm.trans e2,
      hx.2.2.symm.trans e3⟩
  rw [find?_filter_of_imp db _ _ hkey]
  cases hdb : db.find? (rowKeyIs d2 r2 h2) with
  | some x => rfl
  | none =>
    have hr : rowKeyIs d2 r2 h2 r = false := by
      simp only [rowKeyIs, decide_eq_false_iff_not]
      exact fun hcon => hne ⟨hcon.1.symm, hcon.2.1.symm, hcon.2.2.symm⟩
    simp [List.find?, hr]

lemma cache_prices_preserves (date : ℤ) (region : String)
    (prices : List (ℤ × ℚ)) (now : ℤ) (d2 : ℤ) (r2 : String) (h2 : ℤ)
    (hne : ∀ pr ∈ prices, ¬(d2 = date ∧ r2 = region ∧ h2 = pr.1)) :
    ∀ db : List CacheRow,
      cachedPriceAt d2 r2 h2 (cache_prices date region prices now db) =
        cachedPriceAt d2 r2 h2 db := by
  induction prices with
  | nil => intro db; rfl
  | cons a t ih =>
    intro db
    show cachedPriceAt d2 r2 h2 (cache_prices date region t now
      (insertOrReplaceRow db ⟨date, region, a.1, a.2, now⟩)) = _
    rw [ih (fun pr hpr => hne pr (List.mem_cons_of_mem a hpr)),
      cachedPriceAt_insert_ne _ _ _ _ _ (hne a (List.mem_cons_self a t))]

lemma cache_prices_written (date : ℤ) (region : String)
    (prices : List (ℤ × ℚ)) (now : ℤ)
    (hnodup : (prices.map Prod.fst).Nodup) (h : ℤ) (p : ℚ)
    (hmem : (h, p) ∈ prices) :
    ∀ db : List CacheRow,
      cachedPriceAt date region h (cache_prices date region prices now db) =
        some p := by
  induction prices with
  | nil => cases hmem
  | cons a t ih =>
    intro db
    show cachedPriceAt date region h (cache_prices date region t now
      (insertOrReplaceRow db ⟨date, region, a.1, a.2, now⟩)) = some p
    have hnodup2 : (t.map Prod.fst).Nodup := by
      simp only [List.map_cons, List.nodup_cons] at hnodup
      exact hnodup.2
    rcases List.mem_cons.mp hmem with heq | hmem2
    · subst heq
      have hnot : ∀ pr ∈ t, ¬(date = date ∧ region = region ∧ h = pr.1) := by
        intro pr hpr hcon
        have h1 : (h, p).1 ∉ t.map Prod.fst := by
          simp only [List.map_cons, List.nodup_cons] at hnodup
          exact hnodup.1
        exact h1 (List.mem_map.mpr ⟨pr, hpr, hcon.2.2.symm⟩)
      rw [cache_prices_preserves date region t now date region h hnot]
      exact cachedPriceAt_insert_same db ⟨date, region, (h, p).1, (h, p).2, now⟩
    · exact ih hnodup2 hmem2 _

/-- C4 counterexample: a single-entry write creates a 1-row (not 24-row)
curve that a read then observes, and a second single-entry write for the
same `(date, region)` key merges with the first instead of replacing it —
the read returns both hours.  This falsifies "every write fully replaces
or creates the complete 24-entry set" and the no-partial-curve read
invariant. -/
theorem C4_cache_counterexample :
    get_cached_prices 0 "NO1" (cache_prices 0 "NO1" [(0, 1)] 0 []) =
      some [(0, 1)] ∧
    [((0 : ℤ), (1 : ℚ))].length ≠ 24 ∧
    get_cached_prices 0 "NO1"
        (cache_prices 0 "NO1" [(5, 2)] 1
          (cache_prices 0 "NO1" [(0, 1)] 0 [])) =
      some [(0, 1), (5, 2)] := by
  refine ⟨by decide, by decide, by decide⟩

/-- C4 (amended): a cache write upserts exactly the supplied `(hour, price)`
entries under its `(date, region)` key in one commit: an hour not in the
write keeps whatever row it had (merge, not wholesale replacement), rows
under any other `(date, region)` key are untouched, and every written hour
(hour keys are unique, coming from a Python dict) ends up mapped to its
written price.  A read returns whatever rows exist — possibly a partial
curve — or `None` if there are none. -/
theorem C4_cache_upsert (date : ℤ) (region : String)
    (prices : List (ℤ × ℚ)) (now : ℤ) (db : List CacheRow) :
    (∀ h2 : ℤ, (∀ pr ∈ prices, h2 ≠ pr.1) →
      cachedPriceAt date region h2 (cache_prices date region prices now db) =
        cachedPriceAt date region h2 db) ∧
    (∀ (d2 : ℤ) (r2 : String) (h2 : ℤ), d2 ≠ date ∨ r2 ≠ region →
      cachedPriceAt d2 r2 h2 (cache_prices date region prices now db) =
        cachedPriceAt d2 r2 h2 db) ∧
    ((prices.map Prod.fst).Nodup → ∀ (h : ℤ) (p : ℚ), (h, p) ∈ prices →
      cachedPriceAt date region h (cache_prices date region prices now db) =
        some p) := by
  refine ⟨?_, ?_, ?_⟩
  · intro h2 hh
    exact cache_prices_preserves date region prices now date region h2
      (fun pr hpr hcon => hh pr hpr hcon.2.2) db
  · intro d2 r2 h2 hne
    apply cache_prices_preserves date region prices now d2 r2 h2
      (fun pr _ hcon => ?_) db
    rcases hne with h | h
    · exact h hcon.1
    · exact h hcon.2.1
  · intro hnodup h p hmem
    exact cache_prices_written date region prices now hnodup h p hmem db

/-- Witness for C4 (amended): write hours 0 and 1 over a database already
holding hour 5 of the same key; hour 5 survives and hour 0 reads back. -/
theorem C4_cache_upsert_witness :
    (∀ pr ∈ [((0 : ℤ), (1 : ℚ)), (1, 2)], (5 : ℤ) ≠ pr.1) ∧
    cachedPriceAt 0 "NO1" 5
        (cache_prices 0 "NO1" [(0, 1), (1, 2)] 3 [⟨0, "NO1", 5, 9, 2⟩]) =
      cachedPriceAt 0 "NO1" 5 [⟨0, "NO1", 5, 9, 2⟩] ∧
    cachedPriceAt 0 "NO1" 0
        (cache_prices 0 "NO1" [(0, 1), (1, 2)] 3 [⟨0, "NO1", 5, 9, 2⟩]) =
      some 1 := by
  refine ⟨by decide, ?_, ?_⟩
  · exact (C4_cache_upsert 0 "NO1" [(0, 1), (1, 2)] 3
      [⟨0, "NO1", 5, 9, 2⟩]).1 5 (by decide)
  · exact (C4_cache_upsert 0 "NO1" [(0, 1), (1, 2)] 3
      [⟨0, "NO1", 5, 9, 2⟩]).2.2 (by decide) 0 1 (by decide)

/-! ## C8, C10 — `calculate_watt` -/

/-- C8: wattage resolution is a pure function of `(low, high, mode)`:
`"low"` returns the low bound, `"high"` the high bound, `"avg"` the floor
of the exact average `(low + high) / 2` (integer floor division, no other
rounding), and when `low = high` every mode returns that common value. -/
theorem C8_calculate_watt_pure (low high : ℤ) (mode : String) :
    calculate_watt low high "low" = low ∧
    calculate_watt low high "high" = high ∧
    calculate_watt low high "avg" = ⌊((low : ℚ) + (high : ℚ)) / 2⌋ ∧
    (low = high → calculate_watt low high mode = low) := by
  refine ⟨rfl, rfl, ?_, ?_⟩
  · show (low + high).fdiv 2 = _
    rw [fdiv_two_eq_floor]
    norm_num
  · intro h
    subst h
    unfold calculate_watt
    split
    · rfl
    · split
      · rfl
      · rw [fdiv_two_eq_floor]
        have h2 : ((low + low : ℤ) : ℚ) / 2 = (low : ℚ) := by push_cast; ring
        rw [h2, Int.floor_intCast]

/-- Witness for C8 at `low = 750`, `high = 1500`, `mode = "avg"`. -/
theorem C8_calculate_watt_pure_witness :
    calculate_watt 750 1500 "low" = 750 ∧
    calculate_watt 750 1500 "avg" = ⌊((750 : ℚ) + (1500 : ℚ)) / 2⌋ ∧
    ((1000 : ℤ) = 1000 → calculate_watt 1000 1000 "avg" = 1000) := by
  refine ⟨(C8_calculate_watt_pure 750 1500 "avg").1,
    (C8_calculate_watt_pure 750 1500 "avg").2.2.1,
    fun h => (C8_calculate_watt_pure 1000 1000 "avg").2.2.2 h⟩

/-- C10: every mode string other than `"low"` and `"high"` — not just
`"avg"`, also invalid or empty strings — silently resolves to the floored
average `⌊(low + high) / 2⌋` rather than being rejected. -/
theorem C10_unknown_mode_is_avg (low high : ℤ) (mode : String)
    (h1 : mode ≠ "low") (h2 : mode ≠ "high") :
    calculate_watt low high mode = ⌊((low : ℚ) + (high : ℚ)) / 2⌋ := by
  unfold calculate_watt
  rw [if_neg h1, if_neg h2, fdiv_two_eq_floor]
  norm_num

/-- Witness for C10 at the empty mode string. -/
theorem C10_unknown_mode_is_avg_witness :
    "" ≠ "low" ∧ "" ≠ "high" ∧
    calculate_watt 100 201 "" = ⌊((100 : ℚ) + (201 : ℚ)) / 2⌋ := by
  exact ⟨by decide, by decide,
    C10_unknown_mode_is_avg 100 201 "" (by decide) (by decide)⟩

/-! ## C6 — budget alert thresholds -/

/-- C6: with the budget unset or `≤ 0` there is no alert; otherwise, with
`percentage = cost / budget × 100` over the accumulated session cost,
`percentage ≥ 100` yields exactly the "exceeded" alert (taking priority over
the warning), `80 ≤ percentage < 100` exactly the "warning" alert, and
below 80 no alert; in particular 79.9% yields none and 80.0% the warning.
The return type `Option BudgetAlert` yields at most one alert per call. -/
theorem C6_budget_thresholds (sessions : List (Option ℚ)) :
    check_budget_alert none sessions = none ∧
    (∀ b : ℚ, b ≤ 0 → check_budget_alert (some b) sessions = none) ∧
    (∀ b : ℚ, 0 < b →
      (totalCostOfSessions sessions / b * 100 ≥ 100 →
        check_budget_alert (some b) sessions = some .exceeded) ∧
      (80 ≤ totalCostOfSessions sessions / b * 100 →
        totalCostOfSessions sessions / b * 100 < 100 →
        check_budget_alert (some b) sessions = some .warning) ∧
      (totalCostOfSessions sessions / b * 100 < 80 →
        check_budget_alert (some b) sessions = none)) ∧
    check_budget_alert (some 1000) [some 799] = none ∧
    check_budget_alert (some 1000) [some 800] = some .warning := by
  refine ⟨rfl, ?_, ?_, ?_, ?_⟩
  · intro b hb
    simp only [check_budget_alert]
    rw [if_pos hb]
  · intro b hb
    refine ⟨?_, ?_, ?_⟩
    · intro hp
      simp only [check_budget_alert]
      rw [if_neg (by linarith), if_pos hp]
    · intro h80 h100
      simp only [check_budget_alert]
      rw [if_neg (by linarith), if_neg (by simpa using h100),
        if_pos (by simpa using h80)]
    · intro h80
      simp only [check_budget_alert]
      rw [if_neg (by linarith), if_neg (not_le.mpr (by linarith)),
        if_neg (not_le.mpr (by linarith))]
  · norm_num [check_budget_alert, totalCostOfSessions]
  · norm_num [check_budget_alert, totalCostOfSessions]

/-- Witness for C6 at budget 1000 and accumulated cost 850 (85%). -/
theorem C6_budget_thresholds_witness :
    (0 : ℚ) < 1000 ∧ 80 ≤ totalCostOfSessions [some 850] / 1000 * 100 ∧
    totalCostOfSessions [some 850] / 1000 * 100 < 100 ∧
    check_budget_alert (some 1000) [some 850] = some .warning := by
  refine ⟨by norm_num, by norm_num [totalCostOfSessions],
    by norm_num [totalCostOfSessions], ?_⟩
  exact ((C6_budget_thresholds [some 850]).2.2.1 1000 (by norm_num)).2.1
    (by norm_num [totalCostOfSessions]) (by norm_num [totalCostOfSessions])

/-! ## C7 — degenerate intervals -/

/-- C7: whenever `end ≤ start` (equal or inverted bounds), for every
wattage, fixed cost and price environment, the cost call returns the
all-zero result; the result does not depend on the price resolver or the
current price (both are universally quantified), embedding "no price fetch
is performed", and the call is total — no error. -/
theorem C7_degenerate_interval_zero (s e : ℚ) (w : ℤ) (f : ℚ)
    (pa : ℤ → Option ℚ) (cp : Option ℚ) (h : e ≤ s) :
    calculate_session_cost s e w f pa cp = ⟨0, 0, 0, 0, 0, 0, []⟩ :=
  calculate_session_cost_of_nonpos s e w f pa cp h

/-- Witness for C7 at an inverted interval `[5, 3]`. -/
theorem C7_degenerate_interval_zero_witness :
    (3 : ℚ) ≤ 5 ∧
    calculate_session_cost 5 3 1000 1 (fun _ => some 1) (some 2) =
      ⟨0, 0, 0, 0, 0, 0, []⟩ := by
  exact ⟨by norm_num,
    C7_degenerate_interval_zero 5 3 1000 1 (fun _ => some 1) (some 2)
      (by norm_num)⟩
